import Mathlib

/-! # Edge rolloff functor of `lsst::obs::lsstSim`

A shallow embedding of `src/src/EdgeRolloffFunctor.cc` (class declared in
`include/lsst/obs/lsstSim/EdgeRolloffFunctor.h`).

The C++ class stores three `double` members and evaluates two closed-form
expressions using `+ - * /`, unary minus and `std::exp`.  The embedding is
written once for an arbitrary carrier `D` of the `double` values: the
arithmetic operators are taken from the instances on `D` and `std::exp` is
passed as the function `exp : D → D`.  Read at `D = Float` with `Float.exp`
the definitions run; read at `D = ℝ` with `Real.exp` they are the exact
(round-off free) meaning of the expressions, and that is the reading the
analytic properties below are proved for; read at `D = Ieee` they follow the
IEEE-754 rules for infinities, NaN and signed zeros, which is the reading
used where the scale is zero, where `std::exp` overflows and where a
parameter is infinite.
-/

namespace lsst.obs.lsstSim

/-- The class `EdgeRolloffFunctor`: the name handed to the base class
`afw::geom::Functor` and the private members `_amplitude`, `_scale`, `_width`. -/
structure EdgeRolloffFunctor (D : Type) where
  name : String
  _amplitude : D
  _scale : D
  _width : D

namespace EdgeRolloffFunctor

variable {D : Type}

/-- The constructor `EdgeRolloffFunctor(double amplitude, double scale, double width)`:
the initialiser list names the base functor and copies the three arguments. -/
def ctor (amplitude scale width : D) : EdgeRolloffFunctor D :=
  EdgeRolloffFunctor.mk "EdgeRolloffFunctor" amplitude scale width

/-- The method `clone()`: a fresh functor made by the constructor from the
members of `this`. -/
def clone (self : EdgeRolloffFunctor D) : EdgeRolloffFunctor D :=
  ctor self._amplitude self._scale self._width

/-- The method `operator()(double x)`:
`x + _amplitude*(std::exp(-(_width - x)/_scale) - std::exp(-x/_scale))`. -/
def apply [Add D] [Sub D] [Mul D] [Div D] [Neg D] (exp : D → D)
    (self : EdgeRolloffFunctor D) (x : D) : D :=
  let y := x + self._amplitude * (exp ((-(self._width - x)) / self._scale)
                                  - exp ((-x) / self._scale))
  y

/-- The method `derivative(double x)`:
`1 + _amplitude/_scale*(std::exp(-(_width - x)/_scale) + std::exp(-x/_scale))`. -/
def derivative [Add D] [Sub D] [Mul D] [Div D] [Neg D] [One D] (exp : D → D)
    (self : EdgeRolloffFunctor D) (x : D) : D :=
  let dydx := 1 + self._amplitude / self._scale * (exp ((-(self._width - x)) / self._scale)
                                                   + exp ((-x) / self._scale))
  dydx

/-- The Python constructor bound by `py::init<double, double, double>()` under the
keywords `amplitude`, `scale`, `width`: it hands its three arguments, in that
order, to the C++ constructor. -/
def pyInit (amplitude scale width : D) : EdgeRolloffFunctor D :=
  ctor amplitude scale width

end EdgeRolloffFunctor

/-! ## The special values of `double`

The members are IEEE-754 doubles, for which a division by zero traps nothing
and yields an infinity or a NaN.  The carrier below keeps what that needs:
NaN, the two infinities and the finite values with their sign (so that `+0.0`
and `-0.0` are distinct).  Finite results are exact: rounding and overflow of
`+ - * /` are not modelled, only the special-value rules of IEEE-754. -/

/-- A `double`: NaN, a signed infinity, or a finite value given by its sign bit
and its magnitude. -/
inductive Ieee where
  | nan : Ieee
  | inf (negative : Bool) : Ieee
  | fin (negative : Bool) (mag : NNRat) : Ieee
  deriving DecidableEq

namespace Ieee

/-- The test `std::isfinite`. -/
def isFinite : Ieee → Bool
  | fin _ _ => true
  | _ => false

/-- Unary minus: flips the sign bit. -/
def neg : Ieee → Ieee
  | nan => nan
  | inf s => inf (!s)
  | fin s m => fin (!s) m

/-- Addition: opposite infinities give NaN; an exact zero sum of opposite
signs is `+0.0` (round to nearest). -/
def add : Ieee → Ieee → Ieee
  | nan, _ => nan
  | _, nan => nan
  | inf s, inf t => if s = t then inf s else nan
  | inf s, fin _ _ => inf s
  | fin _ _, inf t => inf t
  | fin s m, fin t n =>
      if s = t then fin s (m + n)
      else if m = n then fin false 0
      else if n < m then fin s (m - n)
      else fin t (n - m)

/-- Subtraction: `a - b` is `a + (-b)`. -/
def sub (a b : Ieee) : Ieee := add a (neg b)

/-- Multiplication: the sign is the exclusive or of the signs; infinity times
zero is NaN. -/
def mul : Ieee → Ieee → Ieee
  | nan, _ => nan
  | _, nan => nan
  | inf s, inf t => inf (xor s t)
  | inf s, fin t n => if n = 0 then nan else inf (xor s t)
  | fin s m, inf t => if m = 0 then nan else inf (xor s t)
  | fin s m, fin t n => fin (xor s t) (m * n)

/-- Division: a nonzero finite value over zero is an infinity, zero over zero
and infinity over infinity are NaN; nothing traps. -/
def div : Ieee → Ieee → Ieee
  | nan, _ => nan
  | _, nan => nan
  | inf _, inf _ => nan
  | inf s, fin t _ => inf (xor s t)
  | fin s _, inf t => fin (xor s t) 0
  | fin s m, fin t n =>
      if n = 0 then (if m = 0 then nan else inf (xor s t))
      else fin (xor s t) (m / n)

instance : Add Ieee := ⟨add⟩
instance : Sub Ieee := ⟨sub⟩
instance : Mul Ieee := ⟨mul⟩
instance : Div Ieee := ⟨div⟩
instance : Neg Ieee := ⟨neg⟩
instance : One Ieee := ⟨fin false 1⟩

/-- The function `std::exp` on the special values (C Annex F: `exp(-inf)` is
`+0`, `exp(+inf)` is `+inf`, `exp(NaN)` is NaN); its value at a finite argument
is left to `expFinite`. -/
def exp (expFinite : Bool → NNRat → Ieee) : Ieee → Ieee
  | nan => nan
  | inf false => inf false
  | inf true => fin false 0
  | fin s m => expFinite s m

/-- The real value of a finite `double` with the given sign bit and magnitude;
both zeros have the value `0`. -/
def signed (negative : Bool) (mag : NNRat) : ℚ :=
  if negative then -(mag : ℚ) else (mag : ℚ)

/-- The comparison `a <= b` of two doubles: false when either is NaN. -/
def le : Ieee → Ieee → Bool
  | nan, _ => false
  | _, nan => false
  | inf s, inf t => s || !t
  | inf s, fin _ _ => s
  | fin _ _, inf t => !t
  | fin s m, fin t n => decide (signed s m ≤ signed t n)

end Ieee

/-! ## The closed forms -/

/-- C1: for every amplitude, scale, width and `x`, in whatever arithmetic the
operators and `exp` are read, `operator()` returns
`x + amplitude * (exp(-(width - x)/scale) - exp(-x/scale))`; `x` is used as
given, neither clamped to `[0, width]` nor treated specially at an edge. -/
theorem apply_closed_form {D : Type} [Add D] [Sub D] [Mul D] [Div D] [Neg D]
    (exp : D → D) (amplitude scale width x : D) :
    (EdgeRolloffFunctor.ctor amplitude scale width).apply exp x
      = x + amplitude * (exp (-(width - x) / scale) - exp (-x / scale)) :=
  rfl

/-- C2: for every amplitude, scale, width and `x`, in whatever arithmetic the
operators and `exp` are read, `derivative` returns
`1 + (amplitude/scale) * (exp(-(width - x)/scale) + exp(-x/scale))`, the two
exponential terms being added. -/
theorem derivative_closed_form {D : Type} [Add D] [Sub D] [Mul D] [Div D] [Neg D] [One D]
    (exp : D → D) (amplitude scale width x : D) :
    (EdgeRolloffFunctor.ctor amplitude scale width).derivative exp x
      = 1 + (amplitude / scale) * (exp (-(width - x) / scale) + exp (-x / scale)) :=
  rfl

/-! ## Auxiliary facts about the real-number reading -/

/-- In real arithmetic `derivative` is the derivative of `operator()` at every
point, whatever the three parameters are. -/
lemma hasDerivAt_apply (amplitude scale width x : ℝ) :
    HasDerivAt (fun t => (EdgeRolloffFunctor.ctor amplitude scale width).apply Real.exp t)
      ((EdgeRolloffFunctor.ctor amplitude scale width).derivative Real.exp x) x := by
  simp only [EdgeRolloffFunctor.apply, EdgeRolloffFunctor.derivative, EdgeRolloffFunctor.ctor]
  have h1 : HasDerivAt (fun t : ℝ => -(width - t) / scale) (1 / scale) x := by
    have := (((hasDerivAt_id x).const_sub width).neg).div_const scale
    simpa using this
  have h2 : HasDerivAt (fun t : ℝ => -t / scale) (-1 / scale) x := by
    have := ((hasDerivAt_id x).neg).div_const scale
    simpa using this
  have h := (hasDerivAt_id x).add (((h1.exp).sub (h2.exp)).const_mul amplitude)
  convert h using 1
  ring

/-- On `[0, width]` with a positive scale the two exponential terms sum to
at most their value at an edge, `1 + exp(-width/scale)`. -/
lemma exp_pair_le (scale width t : ℝ) (hs : 0 < scale) (h0 : 0 ≤ t) (hw : t ≤ width) :
    Real.exp (-(width - t) / scale) + Real.exp (-t / scale)
      ≤ 1 + Real.exp (-width / scale) := by
  have ha : Real.exp (-t / scale) ≤ 1 := by
    rw [Real.exp_le_one_iff]
    exact div_nonpos_of_nonpos_of_nonneg (by linarith) hs.le
  have hb : Real.exp (-(width - t) / scale) ≤ 1 := by
    rw [Real.exp_le_one_iff]
    exact div_nonpos_of_nonpos_of_nonneg (by linarith) hs.le
  have hab : Real.exp (-width / scale)
      = Real.exp (-(width - t) / scale) * Real.exp (-t / scale) := by
    rw [← Real.exp_add]; congr 1; ring
  rw [hab]
  nlinarith [mul_nonneg (sub_nonneg.mpr ha) (sub_nonneg.mpr hb)]

/-- The symmetric difference of `operator()` around `x` with step `h`. -/
lemma apply_sub_apply (amplitude scale width x h : ℝ) :
    (EdgeRolloffFunctor.ctor amplitude scale width).apply Real.exp (x + h)
      - (EdgeRolloffFunctor.ctor amplitude scale width).apply Real.exp (x - h)
    = 2 * h + amplitude
        * (Real.exp (-(width - x) / scale) + Real.exp (-x / scale))
        * (Real.exp (h / scale) - Real.exp (-(h / scale))) := by
  simp only [EdgeRolloffFunctor.apply, EdgeRolloffFunctor.ctor]
  have e1 : -(width - (x + h)) / scale = -(width - x) / scale + h / scale := by ring
  have e2 : -(x + h) / scale = -x / scale + -(h / scale) := by ring
  have e3 : -(width - (x - h)) / scale = -(width - x) / scale + -(h / scale) := by ring
  have e4 : -(x - h) / scale = -x / scale + h / scale := by ring
  rw [e1, e2, e3, e4, Real.exp_add, Real.exp_add, Real.exp_add, Real.exp_add]
  ring

/-- Second-order remainder of `exp u - exp (-u)` against `2 * u`. -/
lemma sinh_remainder (u : ℝ) (hu : |u| ≤ 1) :
    |2 * u - (Real.exp u - Real.exp (-u))| ≤ 2 * u ^ 2 := by
  have h1 := Real.abs_exp_sub_one_sub_id_le hu
  have h2 := @Real.abs_exp_sub_one_sub_id_le (-u) (by rwa [abs_neg])
  rw [abs_le] at h1 h2 ⊢
  obtain ⟨a1, a2⟩ := h1
  obtain ⟨b1, b2⟩ := h2
  have hsq : (-u) ^ 2 = u ^ 2 := by ring
  rw [hsq] at b1 b2
  constructor <;> linarith

/-- Enclosure of `exp(-10)`, from the nine-digit enclosure of `e`. -/
lemma exp_neg_ten_bounds : (3e-5 : ℝ) < Real.exp (-10) ∧ Real.exp (-10) < (5e-5 : ℝ) := by
  have hlo := Real.exp_one_gt_d9
  have hhi := Real.exp_one_lt_d9
  have hpos : (0 : ℝ) < Real.exp 1 := Real.exp_pos 1
  have h10 : Real.exp 10 = Real.exp 1 ^ 10 := by
    rw [← Real.exp_nat_mul]; norm_num
  have hlo10 : (20000 : ℝ) < Real.exp 10 := by
    rw [h10]
    calc (20000 : ℝ) < 2.7182818283 ^ 10 := by norm_num
      _ < Real.exp 1 ^ 10 := pow_lt_pow_left₀ hlo (by norm_num) (by norm_num)
  have hhi10 : Real.exp 10 < (33333 : ℝ) := by
    rw [h10]
    calc Real.exp 1 ^ 10 < 2.7182818286 ^ 10 := pow_lt_pow_left₀ hhi hpos.le (by norm_num)
      _ < 33333 := by norm_num
  have hinv : Real.exp (-10) = (Real.exp 10)⁻¹ := Real.exp_neg 10
  have hp10 : (0 : ℝ) < Real.exp 10 := Real.exp_pos 10
  rw [hinv]
  constructor
  · rw [lt_inv_comm₀ (by norm_num) hp10]
    calc Real.exp 10 < 33333 := hhi10
      _ < (3e-5 : ℝ)⁻¹ := by norm_num
  · rw [inv_lt_comm₀ hp10 (by norm_num)]
    calc ((5e-5 : ℝ))⁻¹ = 20000 := by norm_num
      _ < Real.exp 10 := hlo10

/-- The value of `operator()` at `0.0` for the functor `(0.5, 10.0, 100.0)`. -/
lemma apply_scenario_value :
    (EdgeRolloffFunctor.ctor (0.5 : ℝ) 10.0 100.0).apply Real.exp 0.0
      = 0.5 * (Real.exp (-10) - 1) := by
  simp only [EdgeRolloffFunctor.apply, EdgeRolloffFunctor.ctor]
  norm_num

/-- The value of `derivative` at `0.0` for the functor `(0.5, 10.0, 100.0)`. -/
lemma derivative_scenario_value :
    (EdgeRolloffFunctor.ctor (0.5 : ℝ) 10.0 100.0).derivative Real.exp 0.0
      = 1 + 0.05 * (Real.exp (-10) + 1) := by
  simp only [EdgeRolloffFunctor.derivative, EdgeRolloffFunctor.ctor]
  norm_num

/-! ## Analytic properties, in real arithmetic -/

/-- C3: `derivative` is the exact analytic derivative of `operator()`: for every
amplitude and width, every scale other than zero and every real `x`, the map
`t ↦ operator()(t)` is differentiable at `x` with derivative `derivative(x)`. -/
theorem derivative_is_derivative_of_apply (amplitude scale width : ℝ)
    (_hscale : scale ≠ 0) (x : ℝ) :
    HasDerivAt (fun t => (EdgeRolloffFunctor.ctor amplitude scale width).apply Real.exp t)
      ((EdgeRolloffFunctor.ctor amplitude scale width).derivative Real.exp x) x :=
  hasDerivAt_apply amplitude scale width x

/-- Witness of C3 at the functor `(0.5, 10, 100)` and `x = 0`. -/
theorem derivative_is_derivative_of_apply_witness :
    (10 : ℝ) ≠ 0
      ∧ HasDerivAt (fun t => (EdgeRolloffFunctor.ctor (0.5 : ℝ) 10 100).apply Real.exp t)
          ((EdgeRolloffFunctor.ctor (0.5 : ℝ) 10 100).derivative Real.exp 0) 0 :=
  ⟨by norm_num, derivative_is_derivative_of_apply 0.5 10 100 (by norm_num) 0⟩

/-- C7: for the functor `(0.5, 10, 100)`, step `h = 1e-5` and every `x` in
`[0, 100]`, `derivative(x)` is within `1e-6` of the central difference
`(operator()(x + h) - operator()(x - h)) / (2h)`. -/
theorem derivative_close_to_central_difference (x : ℝ) (hx0 : 0 ≤ x) (hx1 : x ≤ 100) :
    |(EdgeRolloffFunctor.ctor (0.5 : ℝ) 10 100).derivative Real.exp x
       - ((EdgeRolloffFunctor.ctor (0.5 : ℝ) 10 100).apply Real.exp (x + 1e-5)
            - (EdgeRolloffFunctor.ctor (0.5 : ℝ) 10 100).apply Real.exp (x - 1e-5))
          / (2 * 1e-5)| ≤ 1e-6 := by
  rw [apply_sub_apply]
  simp only [EdgeRolloffFunctor.derivative, EdgeRolloffFunctor.ctor]
  have hE := exp_pair_le 10 100 x (by norm_num) hx0 hx1
  have hEpos : 0 < Real.exp (-(100 - x) / 10) + Real.exp (-x / 10) :=
    add_pos (Real.exp_pos _) (Real.exp_pos _)
  have hc : Real.exp (-100 / 10) ≤ 1 := by
    rw [Real.exp_le_one_iff]; norm_num
  set E := Real.exp (-(100 - x) / 10) + Real.exp (-x / 10) with hEdef
  have hR := sinh_remainder (1e-5 / 10) (by rw [abs_of_pos] <;> norm_num)
  set S := Real.exp (1e-5 / 10) - Real.exp (-(1e-5 / 10)) with hSdef
  have key : (1 : ℝ) + 0.5 / 10 * E - (2 * 1e-5 + 0.5 * E * S) / (2 * 1e-5)
      = 25000 * E * (2 * (1e-5 / 10) - S) := by
    ring
  rw [key, abs_mul, abs_of_pos (by positivity : (0 : ℝ) < 25000 * E)]
  have hE2 : E ≤ 2 := hE.trans ((add_le_add_left hc 1).trans (by norm_num))
  have hR2 : |2 * (1e-5 / 10) - S| ≤ 2e-12 := by
    refine hR.trans ?_
    norm_num
  calc 25000 * E * |2 * (1e-5 / 10) - S|
      ≤ 25000 * 2 * 2e-12 := by
        apply mul_le_mul _ hR2 (abs_nonneg _) (by norm_num)
        linarith
    _ ≤ 1e-6 := by norm_num

/-- Witness of C7 at the sensor centre `x = 50`. -/
theorem derivative_close_to_central_difference_witness :
    ((0 : ℝ) ≤ 50 ∧ (50 : ℝ) ≤ 100)
      ∧ |(EdgeRolloffFunctor.ctor (0.5 : ℝ) 10 100).derivative Real.exp 50
         - ((EdgeRolloffFunctor.ctor (0.5 : ℝ) 10 100).apply Real.exp (50 + 1e-5)
              - (EdgeRolloffFunctor.ctor (0.5 : ℝ) 10 100).apply Real.exp (50 - 1e-5))
            / (2 * 1e-5)| ≤ 1e-6 :=
  ⟨⟨by norm_num, by norm_num⟩,
    derivative_close_to_central_difference 50 (by norm_num) (by norm_num)⟩

/-- C8: for the functor `(0.5, 10.0, 100.0)`, `operator()(0.0)` is
`0.5 * (exp(-10) - 1)` and lies within `5e-6` of `-0.49998`. -/
theorem apply_scenario :
    (EdgeRolloffFunctor.ctor (0.5 : ℝ) 10.0 100.0).apply Real.exp 0.0
        = 0.5 * (Real.exp (-10) - 1)
      ∧ |(EdgeRolloffFunctor.ctor (0.5 : ℝ) 10.0 100.0).apply Real.exp 0.0 - (-0.49998)|
          ≤ 5e-6 := by
  refine ⟨apply_scenario_value, ?_⟩
  rw [apply_scenario_value, abs_le]
  obtain ⟨hlo, hhi⟩ := exp_neg_ten_bounds
  constructor <;> norm_num at hlo hhi ⊢ <;> linarith

/-- C9 as stated fails: for the functor `(0.5, 10.0, 100.0)`, `derivative(0.0)`
is farther than `5e-6` from the quoted `1.05002`. -/
theorem derivative_scenario_not_quoted_value :
    ¬ |(EdgeRolloffFunctor.ctor (0.5 : ℝ) 10.0 100.0).derivative Real.exp 0.0 - 1.05002|
          ≤ 5e-6 := by
  rw [derivative_scenario_value, abs_le]
  obtain ⟨hlo, hhi⟩ := exp_neg_ten_bounds
  intro h
  obtain ⟨h1, h2⟩ := h
  norm_num at hlo hhi h1 h2
  linarith

/-- C9, amended: for the functor `(0.5, 10.0, 100.0)`, `derivative(0.0)` is
`1 + 0.05 * (exp(-10) + 1)` and lies within `5e-6` of `1.05000`. -/
theorem derivative_scenario :
    (EdgeRolloffFunctor.ctor (0.5 : ℝ) 10.0 100.0).derivative Real.exp 0.0
        = 1 + 0.05 * (Real.exp (-10) + 1)
      ∧ |(EdgeRolloffFunctor.ctor (0.5 : ℝ) 10.0 100.0).derivative Real.exp 0.0 - 1.05000|
          ≤ 5e-6 := by
  refine ⟨derivative_scenario_value, ?_⟩
  rw [derivative_scenario_value, abs_le]
  obtain ⟨hlo, hhi⟩ := exp_neg_ten_bounds
  constructor <;> norm_num at hlo hhi ⊢ <;> linarith

/-! ## Cloning -/

/-- C10: `clone()` yields a functor with the same amplitude, scale and width, in
that order, so it agrees with its source under `operator()` and `derivative` at
every `x`; and the two results are functions of the three parameters and `x`
alone (the name held by the base class plays no part). -/
theorem clone_independence {D : Type} [Add D] [Sub D] [Mul D] [Div D] [Neg D] [One D]
    (exp : D → D) (f : EdgeRolloffFunctor D) :
    (f.clone._amplitude = f._amplitude ∧ f.clone._scale = f._scale
        ∧ f.clone._width = f._width)
      ∧ (∀ x : D, f.clone.apply exp x = f.apply exp x
          ∧ f.clone.derivative exp x = f.derivative exp x)
      ∧ (∀ (n m : String) (amplitude scale width x : D),
          (EdgeRolloffFunctor.mk n amplitude scale width).apply exp x
              = (EdgeRolloffFunctor.mk m amplitude scale width).apply exp x
            ∧ (EdgeRolloffFunctor.mk n amplitude scale width).derivative exp x
              = (EdgeRolloffFunctor.mk m amplitude scale width).derivative exp x) :=
  ⟨⟨rfl, rfl, rfl⟩, fun _ => ⟨rfl, rfl⟩, fun _ _ _ _ _ _ => ⟨rfl, rfl⟩⟩

/-! ## Division by zero and construction -/

/-- With `scale = +0.0` and finite amplitude and width, the value of
`operator()(5.0)` in each of the three positions of the width against `5`. -/
lemma apply_scale_zero (expFinite : Bool → NNRat → Ieee) (sa : Bool) (ma : NNRat)
    (sw : Bool) (mw : NNRat) :
    (EdgeRolloffFunctor.ctor (Ieee.fin sa ma) (Ieee.fin false 0) (Ieee.fin sw mw)).apply
        (Ieee.exp expFinite) (Ieee.fin false 5)
      = if sw = false ∧ 5 < mw then Ieee.fin false 5
        else if sw = false ∧ mw = 5 then Ieee.nan
        else if ma = 0 then Ieee.nan else Ieee.inf sa := by
  have hsub : ∀ a b : Ieee, a - b = Ieee.add a (Ieee.neg b) := fun _ _ => rfl
  have hadd : ∀ a b : Ieee, a + b = Ieee.add a b := fun _ _ => rfl
  have hmul : ∀ a b : Ieee, a * b = Ieee.mul a b := fun _ _ => rfl
  have hdiv : ∀ a b : Ieee, a / b = Ieee.div a b := fun _ _ => rfl
  have hneg : ∀ a : Ieee, -a = Ieee.neg a := fun _ => rfl
  simp only [EdgeRolloffFunctor.apply, EdgeRolloffFunctor.ctor, hsub, hadd, hmul, hdiv, hneg]
  cases sw
  · rcases lt_trichotomy mw 5 with h | h | h
    · have h1 : ¬ (5 : NNRat) < mw := not_lt.mpr h.le
      have h2 : mw ≠ 5 := h.ne
      have h3 : 5 - mw ≠ 0 := (tsub_pos_of_lt h).ne.symm
      by_cases hma : ma = 0 <;>
        simp [Ieee.add, Ieee.neg, Ieee.div, Ieee.mul, Ieee.exp, h1, h2, h3, hma]
    · subst h
      simp [Ieee.add, Ieee.neg, Ieee.div, Ieee.mul, Ieee.exp]
    · have h2 : mw ≠ 5 := h.ne.symm
      have h3 : mw - 5 ≠ 0 := (tsub_pos_of_lt h).ne.symm
      simp [Ieee.add, Ieee.neg, Ieee.div, Ieee.mul, Ieee.exp, h, h2, h3]
  · by_cases hma : ma = 0 <;>
      simp [Ieee.add, Ieee.neg, Ieee.div, Ieee.mul, Ieee.exp, hma]

/-- C11 as stated fails: for the functor `(0.5, +0.0, 100.0)` the call
`operator()(5.0)` is finite (it is `5.0`), whatever `std::exp` returns at finite
arguments. -/
theorem apply_scale_zero_finite_result :
    ¬ ∃ expFinite : Bool → NNRat → Ieee,
        ((EdgeRolloffFunctor.ctor (Ieee.fin false (1 / 2)) (Ieee.fin false 0)
            (Ieee.fin false 100)).apply (Ieee.exp expFinite) (Ieee.fin false 5)).isFinite
          = false := by
  rintro ⟨expFinite, h⟩
  rw [apply_scale_zero] at h
  norm_num [Ieee.isFinite] at h

/-- C11, amended: for `scale = +0.0` and any finite amplitude and width,
`operator()(5.0)` returns a value (nothing traps): exactly `5.0` when the width
is above `5.0`, and a non-finite value (an infinity or NaN) otherwise. -/
theorem apply_scale_zero_at_five (expFinite : Bool → NNRat → Ieee) (sa : Bool) (ma : NNRat)
    (sw : Bool) (mw : NNRat) :
    ((sw = false ∧ 5 < mw) →
        (EdgeRolloffFunctor.ctor (Ieee.fin sa ma) (Ieee.fin false 0) (Ieee.fin sw mw)).apply
            (Ieee.exp expFinite) (Ieee.fin false 5) = Ieee.fin false 5)
      ∧ (¬ (sw = false ∧ 5 < mw) →
        ((EdgeRolloffFunctor.ctor (Ieee.fin sa ma) (Ieee.fin false 0) (Ieee.fin sw mw)).apply
            (Ieee.exp expFinite) (Ieee.fin false 5)).isFinite = false) := by
  rw [apply_scale_zero]
  constructor
  · intro h
    rw [if_pos h]
  · intro h
    rw [if_neg h]
    split_ifs <;> rfl

/-- Witness of C11, amended, at the functor `(0.5, +0.0, 3.0)`, whose width is
below `5.0`: the result is not finite. -/
theorem apply_scale_zero_at_five_witness :
    ((EdgeRolloffFunctor.ctor (Ieee.fin false (1 / 2)) (Ieee.fin false 0)
        (Ieee.fin false 3)).apply (Ieee.exp (fun _ _ => Ieee.fin false 1))
        (Ieee.fin false 5)).isFinite = false :=
  (apply_scale_zero_at_five (fun _ _ => Ieee.fin false 1) false (1 / 2) false 3).2
    (by norm_num)

/-- C12: for every triple `(amplitude, scale, width)`, zero and negative scales
included, the constructor (and the Python constructor that forwards to it)
stores the three arguments unchanged in that order, with no check; `operator()`
and `derivative` then yield a value at every `x`. -/
theorem permissive_construction {D : Type} [Add D] [Sub D] [Mul D] [Div D] [Neg D] [One D]
    (exp : D → D) (amplitude scale width : D) :
    ((EdgeRolloffFunctor.ctor amplitude scale width)._amplitude = amplitude
        ∧ (EdgeRolloffFunctor.ctor amplitude scale width)._scale = scale
        ∧ (EdgeRolloffFunctor.ctor amplitude scale width)._width = width)
      ∧ EdgeRolloffFunctor.pyInit amplitude scale width
          = EdgeRolloffFunctor.ctor amplitude scale width
      ∧ ∀ x : D,
          (∃ y : D, (EdgeRolloffFunctor.ctor amplitude scale width).apply exp x = y)
            ∧ (∃ dydx : D,
                (EdgeRolloffFunctor.ctor amplitude scale width).derivative exp x = dydx) :=
  ⟨⟨rfl, rfl, rfl⟩, rfl, fun _ => ⟨⟨_, rfl⟩, ⟨_, rfl⟩⟩⟩

/-! ## Edges, symmetries and bounds, in real arithmetic -/

/-- C13: for every amplitude and width and every scale other than zero,
`operator()(0)` is `amplitude * (exp(-width/scale) - 1)` and `operator()(width)`
is `width + amplitude * (1 - exp(-width/scale))`: at `x = 0` the first
exponential is `exp(-width/scale)` and the second is `1`, at `x = width` the
first is `1` and the second is `exp(-width/scale)`. -/
theorem apply_at_edges (amplitude scale width : ℝ) (_hscale : scale ≠ 0) :
    ((EdgeRolloffFunctor.ctor amplitude scale width).apply Real.exp 0
        = amplitude * (Real.exp (-width / scale) - 1)
      ∧ (EdgeRolloffFunctor.ctor amplitude scale width).apply Real.exp width
        = width + amplitude * (1 - Real.exp (-width / scale)))
    ∧ (Real.exp (-(width - 0) / scale) = Real.exp (-width / scale)
        ∧ Real.exp (-0 / scale) = 1)
    ∧ Real.exp (-(width - width) / scale) = 1 := by
  simp [EdgeRolloffFunctor.apply, EdgeRolloffFunctor.ctor]

/-- Witness of C13 at the functor `(0.5, 10, 100)`. -/
theorem apply_at_edges_witness :
    (10 : ℝ) ≠ 0
      ∧ (EdgeRolloffFunctor.ctor (0.5 : ℝ) 10 100).apply Real.exp 0
          = 0.5 * (Real.exp (-100 / 10) - 1)
      ∧ (EdgeRolloffFunctor.ctor (0.5 : ℝ) 10 100).apply Real.exp 100
          = 100 + 0.5 * (1 - Real.exp (-100 / 10)) :=
  ⟨by norm_num, (apply_at_edges 0.5 10 100 (by norm_num)).1⟩

end lsst.obs.lsstSim
